import Mathlib

/-!
Verification development for the wns-instancia repository
(`wns_menues/core/parsers.py`, `wns_menues/core/services.py`,
`wns_menues/api/services.py`).

Shallow embedding conventions:
* Python strings are modelled as `List Char` (`Str`).
* Python `float` and `Decimal` values are modelled as exact rationals `ℚ`;
  the result of the builtin `float(str)` conversion is modelled by
  `pyFloatParse`, which follows Python's float-literal grammar
  (surrounding whitespace stripped, optional sign, digit groups with
  underscores, optional fraction and exponent, `inf`/`infinity`/`nan`
  words) and returns `none` where Python raises `ValueError`.
* Calendar dates are modelled as day numbers (`ℤ`), so `today - 30 days`
  is `today - 30`.
* Raised exceptions are modelled with `Except`/`Option` results.
* Persisted database rows are modelled as the lists of row values the
  code hands to the ORM (`bulk_create`/`create`).
-/

/-- Python strings are modelled as lists of characters. -/
abbrev Str := List Char

/-- The dollar currency marker used by the parsers. -/
def dollar : Char := Char.ofNat 36

/-- The period character (decimal/thousands separator). -/
def dot : Char := Char.ofNat 46

/-- The comma character (decimal/thousands separator). -/
def comma : Char := Char.ofNat 44

/-- The single-quote character (used in an error message of the source). -/
def squote : Char := Char.ofNat 39

/-- The underscore character (Python permits it between digits in numeric
literals accepted by `float`). -/
def uscore : Char := Char.ofNat 95

/-- Whitespace characters recognised by Python's `str.strip` and `\s`
(for the ASCII range relevant to the parsed documents). -/
def isPySpace (c : Char) : Bool :=
  c == ' ' || c == '\t' || c == '\n' || c == '\r' ||
  c == Char.ofNat 11 || c == Char.ofNat 12

/-- ASCII decimal digit test (`\d` and the digits accepted by `float`),
written as membership in the ten digit characters. -/
def isDigitC (c : Char) : Bool :=
  ['0', '1', '2', '3', '4', '5', '6', '7', '8', '9'].contains c

/-- Python `str.lower` on the characters occurring in the parsed
documents: ASCII letters plus the accented Spanish capitals. -/
def pyLowerChar (c : Char) : Char :=
  if 'A' ≤ c ∧ c ≤ 'Z' then Char.ofNat (c.toNat + 32)
  else if c = 'Á' then 'á'
  else if c = 'É' then 'é'
  else if c = 'Í' then 'í'
  else if c = 'Ó' then 'ó'
  else if c = 'Ú' then 'ú'
  else if c = 'Ñ' then 'ñ'
  else c

/-- Python `str.lower`. -/
def pyLower (s : Str) : Str := s.map pyLowerChar

/-- Python `str.strip` (no arguments): drop leading and trailing
whitespace. -/
def pyStrip (s : Str) : Str :=
  ((s.dropWhile isPySpace).reverse.dropWhile isPySpace).reverse

/-- Python `str.replace(c, '')`: remove every occurrence of one
character. -/
def removeAll (c : Char) (s : Str) : Str := s.filter (fun x => x != c)

/-- Python `str.replace(a, b)` for single characters. -/
def replaceChar (a b : Char) (s : Str) : Str :=
  s.map (fun x => if x = a then b else x)

/-- Membership of a character in a string (Python `c in s`). -/
def containsChar (c : Char) (s : Str) : Bool := s.any (fun x => x == c)

/-- Python `str.split(sep)` for a one-character separator: split at every
occurrence, keeping empty pieces. -/
def splitOnChar (sep : Char) : Str → List Str
  | [] => [[]]
  | c :: rest =>
    if c = sep then [] :: splitOnChar sep rest
    else
      match splitOnChar sep rest with
      | [] => [[c]]
      | h :: t => (c :: h) :: t

/-- Python substring containment (`pat in s`). -/
def containsSub (pat : Str) : Str → Bool
  | [] => pat.isEmpty
  | c :: rest => pat.isPrefixOf (c :: rest) || containsSub pat rest

/-- Python `str.isdigit` for the ASCII range: non-empty and all digits. -/
def isdigitStr (s : Str) : Bool := !s.isEmpty && s.all isDigitC

/-- The digits of a string, in order. -/
def digitsOf (s : Str) : Str := s.filter isDigitC

/-- Numeric value of a digit string (most significant first). -/
def natOfDigits (s : Str) : ℕ :=
  s.foldl (fun a c => 10 * a + (c.toNat - '0'.toNat)) 0

/-- Python float values: a finite rational, an infinity, or a NaN. -/
inductive PyFloat where
  | fin (q : ℚ)
  | inf (neg : Bool)
  | nan
deriving DecidableEq

/-- Strip an optional leading sign, returning whether it was a minus. -/
def stripSign (s : Str) : Bool × Str :=
  match s with
  | [] => (false, [])
  | c :: r =>
    if c = '+' then (false, r)
    else if c = '-' then (true, r)
    else (false, c :: r)

/-- Split a string at its first `e`/`E`, if any (exponent separator of a
Python float literal). -/
def splitExp (s : Str) : Str × Option Str :=
  (s.takeWhile (fun c => !(c == 'e' || c == 'E')),
   match s.dropWhile (fun c => !(c == 'e' || c == 'E')) with
   | [] => none
   | _ :: t => some t)

/-- Split a string at its first period, if any. -/
def splitDot (s : Str) : Str × Option Str :=
  (s.takeWhile (fun c => !(c == dot)),
   match s.dropWhile (fun c => !(c == dot)) with
   | [] => none
   | _ :: t => some t)

/-- Tail of a Python digit group: digits with single underscores allowed
between digits. -/
def isDigitGroupRest : Str → Bool
  | [] => true
  | c :: rest =>
    if c = uscore then
      match rest with
      | [] => false
      | d :: rest2 => isDigitC d && isDigitGroupRest rest2
    else isDigitC c && isDigitGroupRest rest

/-- A Python `digitpart`: non-empty digits, underscores only between
digits. -/
def isDigitGroup (s : Str) : Bool :=
  match s with
  | [] => false
  | c :: rest => isDigitC c && isDigitGroupRest rest

/-- Validity of the mantissa of a Python float literal: either a plain
digit group, or integer/fraction parts around a period, each empty or a
digit group but not both empty. -/
def mantissaOk (ip : Str) (fp : Option Str) : Bool :=
  match fp with
  | none => isDigitGroup ip
  | some f =>
    (ip.isEmpty || isDigitGroup ip) && (f.isEmpty || isDigitGroup f) &&
    !(ip.isEmpty && f.isEmpty)

/-- Exact rational value of a mantissa given as integer and fraction
digit strings: the value `ip + f / 10 ^ |f|`, written with `mkRat` so
that it evaluates by reduction. -/
def mantissaVal (ip f : Str) : ℚ :=
  mkRat (natOfDigits (digitsOf ip) * 10 ^ (digitsOf f).length + natOfDigits (digitsOf f))
    (10 ^ (digitsOf f).length)

/-- Exact scaling of a rational by a power of ten (the effect of the
exponent of a float literal), written with `mkRat` so that it evaluates
by reduction. -/
def scale10 (q : ℚ) (z : ℤ) : ℚ :=
  if 0 ≤ z then mkRat (q.num * 10 ^ z.toNat) q.den
  else mkRat q.num (q.den * 10 ^ (-z).toNat)

/-- Parse the exponent of a Python float literal (optional sign and a
digit group). -/
def expVal (e : Str) : Option ℤ :=
  let p := stripSign e
  if isDigitGroup p.2 then
    some ((if p.1 then (-1 : ℤ) else 1) * (natOfDigits (digitsOf p.2) : ℤ))
  else none

/-- Parse the unsigned numeric part of a Python float literal, returning
its exact rational value. -/
def pyFloatCore (s : Str) : Option ℚ :=
  let me := splitExp s
  let ifp := splitDot me.1
  if mantissaOk ifp.1 ifp.2 then
    match me.2 with
    | none => some (mantissaVal ifp.1 (ifp.2.getD []))
    | some e =>
      match expVal e with
      | none => none
      | some z => some (scale10 (mantissaVal ifp.1 (ifp.2.getD [])) z)
  else none

/-- Python's builtin `float(str)` conversion: surrounding whitespace is
stripped first (CPython accepts it, e.g. `float("5 ") = 5.0`), then an
optional sign, the `inf`/`infinity`/`nan` words or a numeric literal;
`none` models a raised `ValueError`. -/
def pyFloatParse (s : Str) : Option PyFloat :=
  let p := stripSign (pyStrip s)
  if pyLower p.2 = ['i', 'n', 'f'] ∨ pyLower p.2 = ['i', 'n', 'f', 'i', 'n', 'i', 't', 'y'] then
    some (PyFloat.inf p.1)
  else if pyLower p.2 = ['n', 'a', 'n'] then some PyFloat.nan
  else
    match pyFloatCore p.2 with
    | none => none
    | some q => some (PyFloat.fin (if p.1 then -q else q))

/-- Decidable equality of `Except` results, used to evaluate the
embedded parsers on concrete inputs. -/
instance exceptDecidableEq {ε α : Type} [DecidableEq ε] [DecidableEq α] :
    DecidableEq (Except ε α) := fun x y =>
  match x, y with
  | .error e, .error f =>
    if h : e = f then isTrue (by rw [h]) else isFalse (by simp [h])
  | .ok a, .ok b =>
    if h : a = b then isTrue (by rw [h]) else isFalse (by simp [h])
  | .error _, .ok _ => isFalse (by simp)
  | .ok _, .error _ => isFalse (by simp)

/-- A `(nombre, precio)` record extracted by `FileParser.parse_excel` or
`FileParser.parse_pdf` (source: `core/parsers.py`). -/
structure Producto where
  nombre : Str
  precio : PyFloat
deriving DecidableEq

/-- Character class of the regular expression `[\d\.,]+` used by
`parse_excel`. -/
def isNumSep (c : Char) : Bool := isDigitC c || c == dot || c == comma

/-- Leftmost maximal run of `[\d\.,]` characters in a string
(`re.search(r'([\d\.,]+)', s)` of `parse_excel`). -/
def firstRun : Str → Option Str
  | [] => none
  | c :: rest =>
    if isNumSep c then some (c :: rest.takeWhile isNumSep)
    else firstRun rest

/-- The fixed header-label stopword set `ENCABEZADOS` of `parse_excel`. -/
def ENCABEZADOS : List Str :=
  ["carnicería".data, "carne vacuna".data, "carne de cerdo".data,
   "corte".data, "precio".data]

/-- Number-conversion step of `parse_excel`:
`float(run.replace('.', '').replace(',', '.'))`. -/
def excelNumber (run : Str) : Option PyFloat :=
  pyFloatParse (replaceChar comma dot (removeAll dot run))

/-- Body of the nested cell loop of `FileParser.parse_excel` for one cell
at column `col ≥ 1` together with its left neighbour: `none` when the
code executes `continue`, `some` when it appends a record.  `none` cell
values model `NaN`/empty cells. -/
def excelCell (left cell : Option Str) : Option Producto :=
  match cell with
  | none => none
  | some raw =>
    let precioStr := pyStrip raw
    if !containsChar dollar precioStr && !(precioStr.any isNumSep) then none
    else
      match firstRun precioStr with
      | none => none
      | some run =>
        match excelNumber run with
        | none => none
        | some precio =>
          match left with
          | none => none
          | some lraw =>
            let nombre := pyStrip lraw
            if nombre.isEmpty || ENCABEZADOS.contains (pyLower nombre) ||
               isdigitStr (removeAll comma (removeAll dot nombre)) then none
            else some ⟨nombre, precio⟩

/-- `FileParser.parse_excel` on a rectangular grid of cells: visit every
row, and inside it every column from 1 on, pairing each cell with its
left neighbour. -/
def parse_excel (grid : List (List (Option Str))) : List Producto :=
  grid.flatMap (fun row => (row.zip row.tail).filterMap (fun pr => excelCell pr.1 pr.2))

/-- The text accumulated from the PDF pages by `parse_pdf`: pages with
extractable text are concatenated, each followed by a newline. -/
def fullText (pages : List (Option Str)) : Str :=
  pages.foldl
    (fun acc p =>
      match p with
      | none => acc
      | some t => if t.isEmpty then acc else acc ++ t ++ ['\n'])
    []

/-- The stripped, non-blank lines `parse_pdf` iterates over. -/
def pdfLines (pages : List (Option Str)) : List Str :=
  ((splitOnChar '\n' (fullText pages)).map pyStrip).filter (fun l => !l.isEmpty)

/-- Name extracted from a line by `parse_pdf`:
`line.split('$')[0].strip()`. -/
def pdfName (line : Str) : Str :=
  pyStrip ((splitOnChar dollar line).getD 0 [])

/-- Price text extracted from a line by `parse_pdf`:
`line.split('$')[1].strip().replace('.', '')`. -/
def pdfPriceText (line : Str) : Str :=
  removeAll dot (pyStrip ((splitOnChar dollar line).getD 1 []))

/-- The wrapped user-facing error of `parse_pdf`
(`ValueError(f"Error al procesar el PDF de verduras: ...")`); the payload
carries the offending price text in place of the Python exception text. -/
def vegErrorMsg (t : Str) : Str :=
  "Error al procesar el PDF de verduras: ".data ++ t

/-- The line loop of `FileParser.parse_pdf`: lines without the currency
marker are skipped; on a marker line the price text must convert with
`float`, otherwise the whole extraction fails wrapped as a vegetable
document error. -/
def pdfProcess : List Str → Except Str (List Producto)
  | [] => .ok []
  | line :: rest =>
    if containsChar dollar line then
      match pyFloatParse (pdfPriceText line) with
      | none => .error (vegErrorMsg (pdfPriceText line))
      | some v =>
        match pdfProcess rest with
        | .error e => .error e
        | .ok ps => .ok (⟨pdfName line, v⟩ :: ps)
    else pdfProcess rest

/-- `FileParser.parse_pdf` over the extracted page texts. -/
def parse_pdf (pages : List (Option Str)) : Except Str (List Producto) :=
  pdfProcess (pdfLines pages)

/-- Character class `[-*a-zA-Z0-9]` of the list-marker group of
`regex_ing` in `parse_md`. -/
def isListChar (c : Char) : Bool :=
  c == '-' || c == '*' || ('a' ≤ c && c ≤ 'z') || ('A' ≤ c && c ≤ 'Z') || isDigitC c

/-- Greedy `\s*` followed by `.+` at the end of the ingredient pattern:
skip the maximal whitespace run; when everything left is whitespace the
`.+` backtracks to the final character. -/
def mdNameTail (r : Str) : Option Str :=
  if r.isEmpty then none
  else
    let n := r.dropWhile isPySpace
    if n.isEmpty then
      match r.reverse with
      | [] => none
      | c :: _ => some [c]
    else some n

/-- The `kg|g` unit alternative of `regex_ing`, case-insensitive, with
`kg` preferred; returns the lowered unit and the rest of the string. -/
def mdUnit (r : Str) : Option (Str × Str) :=
  match r with
  | [] => none
  | [g] => if pyLowerChar g = 'g' then some (['g'], []) else none
  | k :: g :: rest =>
    if pyLowerChar k = 'k' ∧ pyLowerChar g = 'g' then some (['k', 'g'], rest)
    else if pyLowerChar k = 'g' then some (['g'], g :: rest)
    else none

/-- The `\s*de\s*(?P<n1>.+)` continuation of the first alternative of
`regex_ing` (case-insensitive `de`). -/
def mdAfterDe (r : Str) : Option Str :=
  match r.dropWhile isPySpace with
  | d :: e :: rest =>
    if pyLowerChar d = 'd' ∧ pyLowerChar e = 'e' then mdNameTail rest else none
  | _ => none

/-- First alternative of `regex_ing`:
`(?P<c1>[\d,.]+)\s*(?P<u1>kg|g)\s*de\s*(?P<n1>.+)`, returning
`(cant, unit, name)`. -/
def mdAlt1 (rest : Str) : Option (Str × Str × Str) :=
  let c1 := rest.takeWhile isNumSep
  if c1.isEmpty then none
  else
    match mdUnit ((rest.drop c1.length).dropWhile isPySpace) with
    | none => none
    | some (u, r2) =>
      match mdAfterDe r2 with
      | none => none
      | some n1 => some (c1, u, n1)

/-- Continuation of the second alternative after the colon:
`\s*(?P<c2>[\d,.]+)\s*(?P<u2>kg|g)`. -/
def mdAlt2Cont (a : Str) : Option (Str × Str) :=
  let b := a.dropWhile isPySpace
  let c2 := b.takeWhile isNumSep
  if c2.isEmpty then none
  else
    match mdUnit ((b.drop c2.length).dropWhile isPySpace) with
    | none => none
    | some (u, _) => some (c2, u)

/-- Second alternative of `regex_ing`:
`(?P<n2>.+):\s*(?P<c2>[\d,.]+)\s*(?P<u2>kg|g)` with greedy `n2` — colon
split positions are tried from the rightmost leftwards, the captured name
must be non-empty. -/
def mdAlt2From (rest : Str) : ℕ → Option (Str × Str × Str)
  | 0 => none
  | j + 1 =>
    match
      (if rest.getD (j + 1) 'x' = ':' then
        match mdAlt2Cont (rest.drop (j + 2)) with
        | some (c2, u) => some (c2, u, rest.take (j + 1))
        | none => none
      else none) with
    | some r => some r
    | none => mdAlt2From rest j

/-- Both alternatives of `regex_ing` at one start position, first
alternative preferred. -/
def mdAlts (restj : Str) : Option (Str × Str × Str) :=
  match mdAlt1 restj with
  | some r => some r
  | none => mdAlt2From restj (restj.length - 1)

/-- Backtracking of the greedy `\s+` of the list-marker group: `j`
whitespace characters stay consumed, from all of them down to one. -/
def mdTryFrom (r2 : Str) : ℕ → Option (Str × Str × Str)
  | 0 => none
  | j + 1 =>
    match mdAlts (r2.drop (j + 1)) with
    | some r => some r
    | none => mdTryFrom r2 j

/-- `regex_ing.search(line)` of `parse_md` with its captured groups
`(cant, unit lowered, name)`: the line must begin with a run of
`[-*a-zA-Z0-9]`, an optional period and at least one whitespace
character, followed by either `<qty> <unit> de <name>` or
`<name>: <qty> <unit>` (unit `kg`/`g`, case-insensitive). -/
def matchIngredient (line : Str) : Option (Str × Str × Str) :=
  let run := line.takeWhile isListChar
  if run.isEmpty then none
  else
    let r1 := line.drop run.length
    let r2 :=
      match r1 with
      | [] => []
      | c :: t => if c = dot then t else c :: t
    let m := (r2.takeWhile isPySpace).length
    if m = 0 then none else mdTryFrom r2 m

/-- A parsed recipe ingredient (`{'nombre': ..., 'cantidad_kg': ...}`). -/
structure IngIn where
  nombre : Str
  cantidad_kg : ℚ
deriving DecidableEq

/-- A parsed recipe record of `parse_md`
(`{'nombre', 'ingredientes', 'instrucciones'}`). -/
structure Receta where
  nombre : Str
  ingredientes : List IngIn
  instrucciones : Str
deriving DecidableEq

/-- Ingredient handling for one line inside the ingredient section of
`parse_md`: regex match, `float` conversion of the quantity with commas
turned into periods, gram-to-kilogram division, name trimming.  `none`
models both a non-matching line and a quantity conversion error
(`except ValueError: pass`). -/
def mdIngredient (line : Str) : Option IngIn :=
  match matchIngredient line with
  | none => none
  | some (cant, unit, name) =>
    match pyFloatParse (replaceChar comma dot cant) with
    | some (PyFloat.fin q) =>
      some ⟨pyStrip name, if unit = ['g'] then mkRat q.num (q.den * 1000) else q⟩
    | _ => none

/-- Python `line.replace('# ', '')` of the title branch: remove every
occurrence of the two-character marker, scanning left to right. -/
def removeHashSpace : Str → Str
  | [] => []
  | [c] => [c]
  | c :: c2 :: rest2 =>
    if c = '#' ∧ c2 = ' ' then removeHashSpace rest2
    else c :: removeHashSpace (c2 :: rest2)

/-- Append the open recipe to the accumulated list, when one is open. -/
def flushCur (acc : List Receta) (cur : Option Receta) : List Receta :=
  match cur with
  | none => acc
  | some r => acc ++ [r]

/-- The line loop of `FileParser.parse_md` with its mutable state made
explicit: the open recipe, the in-ingredient-section flag and the
accumulated records.  `.error ()` models the uncaught `KeyError` the
source raises when an ingredient line matches while no recipe is open. -/
def mdGo : List Str → Option Receta → Bool → List Receta → Except Unit (List Receta)
  | [], cur, _, acc => .ok (flushCur acc cur)
  | line :: rest, cur, reading, acc =>
    let l := pyStrip line
    if l.isEmpty then mdGo rest cur reading acc
    else if ("# ".data).isPrefixOf l then
      mdGo rest (some ⟨pyStrip (removeHashSpace l), [], []⟩) false (flushCur acc cur)
    else if (containsSub ("ingredientes".data) (pyLower l) ||
             containsSub ("lista".data) (pyLower l)) && ("##".data).isPrefixOf l then
      mdGo rest cur true acc
    else if (containsSub ("instrucciones".data) (pyLower l) ||
             containsSub ("preparación".data) (pyLower l)) && ("##".data).isPrefixOf l then
      mdGo rest cur false acc
    else if reading then
      match mdIngredient l with
      | none => mdGo rest cur reading acc
      | some ing =>
        match cur with
        | none => .error ()
        | some r =>
          mdGo rest (some ⟨r.nombre, r.ingredientes ++ [ing], r.instrucciones⟩) reading acc
    else
      match cur with
      | none => mdGo rest cur reading acc
      | some r =>
        if ("#".data).isPrefixOf l then mdGo rest cur reading acc
        else mdGo rest (some ⟨r.nombre, r.ingredientes, r.instrucciones ++ l ++ ['\n']⟩) reading acc

/-- `FileParser.parse_md` over the decoded file content. -/
def parse_md (content : Str) : Except Unit (List Receta) :=
  mdGo (splitOnChar '\n' content) none false []

/-- A canonical `Ingredient` row of the catalog (`core/models.py`):
unique normalized name and decimal price per kilogram. -/
structure Ingredient where
  name : Str
  price_per_kg : ℚ
deriving DecidableEq

/-- `ETLService._save_base_ingredients`: the `(name, price_per_kg)` rows
handed to `bulk_create` — names stripped and lowercased, prices taken
verbatim from the parsed records. -/
def save_base_ingredients (data : List Producto) : List (Str × PyFloat) :=
  data.map (fun p => (pyLower (pyStrip p.nombre), p.precio))

/-- The in-memory snapshot `{ing.name.lower(): ing for ing in ...}` taken
once at the start of `_save_cooking_recipe`. -/
def build_snapshot (catalog : List Ingredient) : List (Str × Ingredient) :=
  catalog.map (fun i => (pyLower i.name, i))

/-- Python dict lookup on the snapshot association list; later bindings
shadow earlier ones, as in a dict comprehension. -/
def lookupSnap : List (Str × Ingredient) → Str → Option Ingredient
  | [], _ => none
  | kv :: rest, key =>
    match lookupSnap rest key with
    | some r => some r
    | none => if kv.1 = key then some kv.2 else none

/-- Quantity normalization of `_save_cooking_recipe`:
`math.ceil(raw_qty / 0.25) * 0.25`, i.e. `⌈4q⌉ / 4`, written with
`mkRat` so that it evaluates by reduction; `normalizeQty_eq` restates it
in the source's shape. -/
def normalizeQty (q : ℚ) : ℚ := mkRat ⌈mkRat (4 * q.num) q.den⌉ 4

/-- A `CookingRecipeItem` row (`core/models.py`): nullable ingredient
reference, raw and normalized quantities. -/
structure SavedItem where
  ingredient : Option Ingredient
  quantity_raw : ℚ
  quantity_normalized : ℚ
deriving DecidableEq

/-- A persisted `CookingRecipe` header together with its line items. -/
structure SavedRecipe where
  name : Str
  instructions : Str
  items : List SavedItem
deriving DecidableEq

/-- The per-recipe ingredient pass of `_save_cooking_recipe`: split the
parsed ingredients into missing names (original spelling, for the error
message) and the resolved `(ingredient, raw quantity)` buffer, in input
order. -/
def splitIngredients (snap : List (Str × Ingredient)) :
    List IngIn → List Str × List (Ingredient × ℚ)
  | [] => ([], [])
  | i :: rest =>
    let mv := splitIngredients snap rest
    match lookupSnap snap (pyLower (pyStrip i.nombre)) with
    | none => (i.nombre :: mv.1, mv.2)
    | some ing => (mv.1, (ing, i.cantidad_kg) :: mv.2)

/-- The rejection message recorded for a recipe with missing
ingredients. -/
def missingMsg (nombre : Str) (missing : List Str) : Str :=
  "Receta ".data ++ [squote] ++ nombre ++ [squote] ++ ": El ingrediente (".data ++
    List.intercalate (", ".data) missing ++ ") no existe en la base de datos".data

/-- `ETLService._save_cooking_recipe` against the snapshot: for each
parsed recipe, persist the header and one line item per resolved
ingredient when nothing is missing, otherwise record one error message
and persist nothing for it.  Returns
`(created_count, errors, persisted recipes)`. -/
def save_cooking_recipe (snap : List (Str × Ingredient)) :
    List Receta → ℕ × List Str × List SavedRecipe
  | [] => (0, [], [])
  | r :: rest =>
    let mv := splitIngredients snap r.ingredientes
    let acc := save_cooking_recipe snap rest
    if mv.1.isEmpty then
      (acc.1 + 1, acc.2.1,
        ⟨r.nombre, r.instrucciones,
          mv.2.map (fun p => ⟨some p.1, p.2, normalizeQty p.2⟩)⟩ :: acc.2.2)
    else (acc.1, missingMsg r.nombre mv.1 :: acc.2.1, acc.2.2)

/-- The cost accumulation loop of `PricingService.calculate_recipe_cost`:
`Decimal` sum of `quantity_normalized * price_per_kg` over the items
whose ingredient reference is set. -/
def calcTotalArs (items : List SavedItem) : ℚ :=
  items.foldl
    (fun acc it =>
      match it.ingredient with
      | some ing => acc + it.quantity_normalized * ing.price_per_kg
      | none => acc)
    0

/-- The `ValueError` message of the date-window validation of
`calculate_recipe_cost`. -/
def dateWindowError : Str := "La fecha debe estar dentro de los últimos 30 días.".data

/-- The date-window validation of `calculate_recipe_cost` on dates
modelled as day numbers: reject iff the target date is after today or
before today minus 30 days. -/
def validate_date_window (today target : ℤ) : Except Str Unit :=
  if target > today ∨ target < today - 30 then .error dateWindowError else .ok ()

/-- The Markdown scenario input of the specification, with the
ingredient lines written bare, exactly as the claim states them:
one title line, an ingredients section heading, the lines
`1 kg de Papa` and `Carne: 0.5 kg`, an instructions section heading and
two instruction lines. -/
def mdBareInput : Str :=
  ("# Pastel de Papa\n## Ingredientes\n1 kg de Papa\nCarne: 0.5 kg\n## Instrucciones\nHervir papa.\nCocinar carne.").data

/-- The same Markdown scenario with the ingredient lines carrying a
list-item marker, as in the repository's own test data. -/
def mdMarkedInput : Str :=
  ("# Pastel de Papa\n## Ingredientes\n- 1 kg de Papa\n- Carne: 0.5 kg\n## Instrucciones\nHervir papa.\nCocinar carne.").data

/-- Value of `mkRat` as a field division, with the denominator cast from
`ℕ`. -/
theorem mkRat_val (n : ℤ) (d : ℕ) : (mkRat n d : ℚ) = (n : ℚ) / (d : ℚ) := by
  rw [Rat.mkRat_eq_divInt, Rat.divInt_eq_div]
  norm_num

/-- The quantity normalization in the shape of the source expression
`math.ceil(raw_qty / 0.25) * 0.25`. -/
theorem normalizeQty_eq (q : ℚ) : normalizeQty q = (⌈q / (1 / 4 : ℚ)⌉ : ℚ) * (1 / 4) := by
  have hden : ((q.den : ℚ)) ≠ 0 := by
    exact_mod_cast q.den_nz
  have h4 : (mkRat (4 * q.num) q.den : ℚ) = q / (1 / 4 : ℚ) := by
    rw [mkRat_val]
    push_cast
    rw [mul_div_assoc, Rat.num_div_den]
    norm_num
    ring
  unfold normalizeQty
  rw [h4, mkRat_val]
  push_cast
  ring

/-- C4: quantity normalization `ceil(quantity_raw / 0.25) * 0.25` is
idempotent on multiples of 0.25 kg, always rounds up to the nearest
0.25 kg for every positive raw quantity (it is a quarter multiple, at
least the raw value, and less than a quarter above it), and
`normalize(0.25) = 0.25`, `normalize(0.26) = 0.50`,
`normalize(0.3) = 0.50`, `normalize(1.0) = 1.00`. -/
theorem quantity_normalization_spec (k : ℕ) (q : ℚ) (hq : 0 < q) :
    normalizeQty ((k : ℚ) * (1 / 4)) = (k : ℚ) * (1 / 4) ∧
    q ≤ normalizeQty q ∧
    normalizeQty q < q + 1 / 4 ∧
    (∃ m : ℕ, normalizeQty q = (m : ℚ) * (1 / 4)) ∧
    normalizeQty (1 / 4) = 1 / 4 ∧
    normalizeQty (26 / 100) = 1 / 2 ∧
    normalizeQty (3 / 10) = 1 / 2 ∧
    normalizeQty 1 = 1 := by
  have hquarter : (0 : ℚ) < 1 / 4 := by norm_num
  have hmul : ∀ r : ℚ, r / (1 / 4 : ℚ) * (1 / 4) = r := by
    intro r
    field_simp
  refine ⟨?_, ?_, ?_, ?_, ?_, ?_, ?_, ?_⟩
  · rw [normalizeQty_eq]
    have h1 : ((k : ℚ) * (1 / 4)) / (1 / 4) = (k : ℚ) := by field_simp
    rw [h1, Int.ceil_natCast]
    norm_cast
  · rw [normalizeQty_eq]
    calc q = q / (1 / 4 : ℚ) * (1 / 4) := (hmul q).symm
    _ ≤ (⌈q / (1 / 4 : ℚ)⌉ : ℚ) * (1 / 4) :=
      mul_le_mul_of_nonneg_right (Int.le_ceil _) (le_of_lt hquarter)
  · rw [normalizeQty_eq]
    calc (⌈q / (1 / 4 : ℚ)⌉ : ℚ) * (1 / 4)
        < (q / (1 / 4 : ℚ) + 1) * (1 / 4) :=
          mul_lt_mul_of_pos_right (Int.ceil_lt_add_one _) hquarter
    _ = q + 1 / 4 := by rw [add_mul, hmul q, one_mul]
  · refine ⟨⌈q / (1 / 4 : ℚ)⌉.toNat, ?_⟩
    rw [normalizeQty_eq]
    have hpos : (0 : ℚ) < q / (1 / 4 : ℚ) := div_pos hq hquarter
    have hc : (0 : ℤ) ≤ ⌈q / (1 / 4 : ℚ)⌉ := le_of_lt (Int.ceil_pos.mpr hpos)
    congr 1
    exact_mod_cast (Int.toNat_of_nonneg hc).symm
  · rw [normalizeQty_eq]
    have h1 : ((1 : ℚ) / 4) / (1 / 4) = (1 : ℚ) := by norm_num
    rw [h1]
    norm_num
  · rw [normalizeQty_eq]
    have h1 : ((26 : ℚ) / 100) / (1 / 4) = (26 : ℚ) / 25 := by norm_num
    have h2 : ⌈(26 : ℚ) / 25⌉ = 2 := by
      rw [Int.ceil_eq_iff]
      constructor <;> norm_num
    rw [h1, h2]
    norm_num
  · rw [normalizeQty_eq]
    have h1 : ((3 : ℚ) / 10) / (1 / 4) = (6 : ℚ) / 5 := by norm_num
    have h2 : ⌈(6 : ℚ) / 5⌉ = 2 := by
      rw [Int.ceil_eq_iff]
      constructor <;> norm_num
    rw [h1, h2]
    norm_num
  · rw [normalizeQty_eq]
    have h1 : (1 : ℚ) / (1 / 4) = (4 : ℚ) := by norm_num
    rw [h1]
    norm_num

/-- Witness for `quantity_normalization_spec` at `k = 2`, `q = 3/10`. -/
theorem quantity_normalization_spec_witness :
    (0 : ℚ) < 3 / 10 ∧ (3 / 10 : ℚ) ≤ normalizeQty (3 / 10) :=
  ⟨by norm_num, (quantity_normalization_spec 2 (3 / 10) (by norm_num)).2.1⟩

/-- C6: the date-window validation accepts a date iff it lies in the
inclusive window `[today - 30, today]`; in particular `today` and
`today - 30` are accepted while `today - 31` and `today + 1` are
rejected with the `InvalidInput` error. -/
theorem date_window_spec (today target : ℤ) :
    (validate_date_window today target = Except.ok () ↔
      today - 30 ≤ target ∧ target ≤ today) ∧
    validate_date_window today today = Except.ok () ∧
    validate_date_window today (today - 30) = Except.ok () ∧
    validate_date_window today (today - 31) = Except.error dateWindowError ∧
    validate_date_window today (today + 1) = Except.error dateWindowError := by
  unfold validate_date_window
  refine ⟨?_, ?_, ?_, ?_, ?_⟩
  · constructor
    · intro h
      by_contra hc
      rw [if_pos (by omega)] at h
      exact absurd h (by simp)
    · intro h
      rw [if_neg (by omega)]
  · rw [if_neg (by omega)]
  · rw [if_neg (by omega)]
  · rw [if_pos (by omega)]
  · rw [if_pos (by omega)]

/-- Witness for `date_window_spec` at `today = 0`, `target = 0`. -/
theorem date_window_spec_witness : validate_date_window 0 0 = Except.ok () :=
  (date_window_spec 0 0).1.mpr (by omega)

/-- C10: a parsed recipe whose ingredient list is empty is always
accepted by the reconciliation stage — its header is persisted with zero
line items, the created count is incremented and no error message is
recorded for it. -/
theorem empty_recipe_accepted (snap : List (Str × Ingredient)) (nombre instr : Str)
    (rest : List Receta) :
    save_cooking_recipe snap (⟨nombre, [], instr⟩ :: rest) =
      ((save_cooking_recipe snap rest).1 + 1,
        (save_cooking_recipe snap rest).2.1,
        ⟨nombre, instr, []⟩ :: (save_cooking_recipe snap rest).2.2) := by
  simp [save_cooking_recipe, splitIngredients]

/-- Accumulator shift for the cost fold. -/
theorem calcTotalArs_shift (l : List SavedItem) (a : ℚ) :
    l.foldl
      (fun acc it =>
        match it.ingredient with
        | some ing => acc + it.quantity_normalized * ing.price_per_kg
        | none => acc) a
      = a + calcTotalArs l := by
  induction l generalizing a with
  | nil => simp [calcTotalArs]
  | cons x l ih =>
    simp only [calcTotalArs, List.foldl_cons]
    cases hx : x.ingredient with
    | none =>
      simp only [hx]
      rw [ih a, ih 0]
      ring_nf
    | some ing =>
      simp only [hx]
      rw [ih (a + x.quantity_normalized * ing.price_per_kg),
        ih (0 + x.quantity_normalized * ing.price_per_kg)]
      ring_nf

/-- The cost fold as a sum over the resolvable items. -/
theorem calcTotalArs_eq_sum (items : List SavedItem) :
    calcTotalArs items =
      (items.filterMap (fun it => it.ingredient.map
        (fun ing => it.quantity_normalized * ing.price_per_kg))).sum := by
  induction items with
  | nil => simp [calcTotalArs]
  | cons x l ih =>
    simp only [calcTotalArs, List.foldl_cons]
    rw [calcTotalArs_shift]
    cases hx : x.ingredient with
    | none => simp [hx, List.filterMap_cons, ← ih, calcTotalArs]
    | some ing => simp [hx, List.filterMap_cons, ← ih, calcTotalArs]

/-- C5: the local-currency total is the exact decimal sum of
`quantity_normalized * price_per_kg` over exactly the line items with a
non-null ingredient reference, and a line item with a null reference
contributes exactly zero (removing it leaves the total unchanged) and
never causes an error. -/
theorem cost_total_spec (items pre post : List SavedItem) (qr qn : ℚ) :
    calcTotalArs items =
      (items.filterMap (fun it => it.ingredient.map
        (fun ing => it.quantity_normalized * ing.price_per_kg))).sum ∧
    calcTotalArs (pre ++ ⟨none, qr, qn⟩ :: post) = calcTotalArs (pre ++ post) := by
  refine ⟨calcTotalArs_eq_sum items, ?_⟩
  rw [calcTotalArs_eq_sum, calcTotalArs_eq_sum]
  simp [List.filterMap_append, List.filterMap_cons]

/-- The snapshot lookup succeeds exactly on the keys of the snapshot. -/
theorem lookupSnap_isSome (snap : List (Str × Ingredient)) (key : Str) :
    (lookupSnap snap key).isSome ↔ key ∈ snap.map Prod.fst := by
  induction snap with
  | nil => simp [lookupSnap]
  | cons kv rest ih =>
    simp only [lookupSnap, List.map_cons, List.mem_cons]
    cases h : lookupSnap rest key with
    | some r =>
      have hmem : key ∈ rest.map Prod.fst := by
        rw [← ih]
        rw [h]
        rfl
      simp only [h, Option.isSome_some]
      exact ⟨fun _ => Or.inr hmem, fun _ => trivial⟩
    | none =>
      have hmem : key ∉ rest.map Prod.fst := by
        intro hm
        have hsome := ih.mpr hm
        rw [h] at hsome
        exact absurd hsome (by decide)
      simp only [h]
      by_cases hk : kv.1 = key
      · subst hk
        rw [if_pos rfl]
        simp only [Option.isSome_some]
        exact ⟨fun _ => Or.inl trivial, fun _ => trivial⟩
      · simp only [if_neg hk, Option.isSome_none]
        constructor
        · intro hfalse
          exact absurd hfalse (by decide)
        · intro hmem2
          rcases hmem2 with h1 | h2
          · exact absurd h1.symm hk
          · exact absurd h2 hmem

/-- The missing-ingredient list of a recipe is empty iff every parsed
ingredient name resolves in the snapshot. -/
theorem splitIngredients_missing_empty (snap : List (Str × Ingredient)) (l : List IngIn) :
    (splitIngredients snap l).1 = [] ↔
      ∀ i ∈ l, (lookupSnap snap (pyLower (pyStrip i.nombre))).isSome := by
  induction l with
  | nil => simp [splitIngredients]
  | cons i l ih =>
    simp only [splitIngredients]
    cases h : lookupSnap snap (pyLower (pyStrip i.nombre)) with
    | none => simp [h]
    | some ing => simp [h, ih]

/-- The resolved buffer of a recipe, unconditionally, as a `filterMap`
over the parsed ingredients. -/
theorem splitIngredients_valid (snap : List (Str × Ingredient)) (l : List IngIn) :
    (splitIngredients snap l).2 =
      l.filterMap (fun i => (lookupSnap snap (pyLower (pyStrip i.nombre))).map
        (fun ing => (ing, i.cantidad_kg))) := by
  induction l with
  | nil => simp [splitIngredients]
  | cons i l ih =>
    simp only [splitIngredients, List.filterMap_cons]
    cases h : lookupSnap snap (pyLower (pyStrip i.nombre)) with
    | none => simp [h, ih]
    | some ing => simp [h, ih]

/-- When every ingredient resolves, the persisted line items are exactly
one per parsed ingredient, in order, with the looked-up ingredient and
the normalized quantity. -/
theorem items_of_resolved (snap : List (Str × Ingredient)) (l : List IngIn)
    (h : ∀ i ∈ l, (lookupSnap snap (pyLower (pyStrip i.nombre))).isSome) :
    (l.filterMap (fun i => (lookupSnap snap (pyLower (pyStrip i.nombre))).map
        (fun ing => (ing, i.cantidad_kg)))).map
      (fun p => (⟨some p.1, p.2, normalizeQty p.2⟩ : SavedItem)) =
      l.map (fun i =>
        (⟨lookupSnap snap (pyLower (pyStrip i.nombre)), i.cantidad_kg,
          normalizeQty i.cantidad_kg⟩ : SavedItem)) := by
  induction l with
  | nil => simp
  | cons i l ih =>
    have hi := h i (by simp)
    rcases Option.isSome_iff_exists.mp hi with ⟨ing, hing⟩
    have hrest := ih (fun j hj => h j (by simp [hj]))
    simp [List.filterMap_cons, hing, hrest]

/-- C1: a parsed recipe is persisted — header plus one line item per
ingredient — iff every one of its parsed ingredient names, trimmed and
lowercased, is a key of the ingredient-catalog snapshot taken once at
batch start; when any ingredient is missing nothing at all is persisted
for that recipe.  The snapshot keys are exactly the lowercased catalog
names. -/
theorem recipe_reconciliation_iff (catalog : List Ingredient) (data : List Receta) :
    (save_cooking_recipe (build_snapshot catalog) data).2.2 =
      (data.filter (fun r => r.ingredientes.all
          (fun i => (lookupSnap (build_snapshot catalog) (pyLower (pyStrip i.nombre))).isSome))).map
        (fun r => ⟨r.nombre, r.instrucciones,
          r.ingredientes.map (fun i =>
            (⟨lookupSnap (build_snapshot catalog) (pyLower (pyStrip i.nombre)),
              i.cantidad_kg, normalizeQty i.cantidad_kg⟩ : SavedItem))⟩) ∧
    ∀ key, (lookupSnap (build_snapshot catalog) key).isSome ↔
      key ∈ catalog.map (fun i => pyLower i.name) := by
  constructor
  · induction data with
    | nil => simp [save_cooking_recipe]
    | cons r rest ih =>
      by_cases hm : (splitIngredients (build_snapshot catalog) r.ingredientes).1 = []
      · have hall := (splitIngredients_missing_empty (build_snapshot catalog) r.ingredientes).mp hm
        have hfilter : (r.ingredientes.all
            (fun i => (lookupSnap (build_snapshot catalog) (pyLower (pyStrip i.nombre))).isSome)) = true := by
          rw [List.all_eq_true]
          exact hall
        have hv := splitIngredients_valid (build_snapshot catalog) r.ingredientes
        have hitems := items_of_resolved (build_snapshot catalog) r.ingredientes hall
        simp only [save_cooking_recipe, List.filter_cons, hfilter, if_true, List.map_cons]
        rw [if_pos (by rw [hm]; rfl)]
        rw [hv] at *
        simp only [hitems, ih]
      · have hfilter : (r.ingredientes.all
            (fun i => (lookupSnap (build_snapshot catalog) (pyLower (pyStrip i.nombre))).isSome)) = false := by
          rw [← Bool.not_eq_true, List.all_eq_true]
          intro hforall
          exact hm ((splitIngredients_missing_empty _ _).mpr hforall)
        have hne : ¬((splitIngredients (build_snapshot catalog) r.ingredientes).1.isEmpty = true) := by
          simp only [List.isEmpty_eq_true]
          exact hm
        simp only [save_cooking_recipe, List.filter_cons, hfilter]
        rw [if_neg hne]
        simpa using ih
  · intro key
    rw [lookupSnap_isSome]
    unfold build_snapshot
    rw [List.map_map]
    rfl

/-- Witness for `recipe_reconciliation_iff`: the lowered name of a
catalog ingredient is a key of the snapshot. -/
theorem recipe_reconciliation_iff_witness :
    (lookupSnap (build_snapshot [⟨"Carne".data, 1000⟩]) ("carne".data)).isSome :=
  ((recipe_reconciliation_iff [⟨"Carne".data, 1000⟩] []).2 ("carne".data)).mpr (by decide)

/-- The Python split never yields an empty list of pieces. -/
theorem splitOnChar_ne_nil (sep : Char) (s : Str) : splitOnChar sep s ≠ [] := by
  induction s with
  | nil => simp [splitOnChar]
  | cons c rest ih =>
    simp only [splitOnChar]
    by_cases hc : c = sep
    · simp [hc]
    · simp only [if_neg hc]
      cases hsp : splitOnChar sep rest with
      | nil => exact absurd hsp ih
      | cons h t => simp

/-- Piece 0 of the Python split is the text before the first separator. -/
theorem splitOnChar_head (sep : Char) (s : Str) :
    (splitOnChar sep s).getD 0 [] = s.takeWhile (fun c => !(c == sep)) := by
  induction s with
  | nil => simp [splitOnChar]
  | cons c rest ih =>
    simp only [splitOnChar, List.takeWhile_cons]
    by_cases hc : c = sep
    · simp [hc]
    · simp only [if_neg hc]
      cases hsp : splitOnChar sep rest with
      | nil => exact absurd hsp (splitOnChar_ne_nil sep rest)
      | cons h t =>
        rw [hsp] at ih
        simp only [List.getD_cons_zero] at ih
        simp [hc, ih]

/-- Piece 1 of the Python split is the text strictly between the first
separator and the following one (or the end of the string), provided the
separator occurs at all. -/
theorem splitOnChar_second (sep : Char) (s : Str) (h : containsChar sep s = true) :
    (splitOnChar sep s).getD 1 [] =
      ((s.dropWhile (fun c => !(c == sep))).tail).takeWhile (fun c => !(c == sep)) := by
  induction s with
  | nil => simp [containsChar] at h
  | cons c rest ih =>
    simp only [splitOnChar, List.dropWhile_cons]
    by_cases hc : c = sep
    · simp only [if_pos hc, hc, beq_self_eq_true, Bool.not_true, Bool.false_eq_true,
        if_false, List.getD_cons_succ, List.tail_cons]
      exact splitOnChar_head sep rest
    · have hcb : (!(c == sep)) = true := by
        simp [hc]
      have hrest : containsChar sep rest = true := by
        simp only [containsChar, List.any_cons, Bool.or_eq_true] at h
        rcases h with h1 | h2
        · exact absurd (by simpa using h1) hc
        · exact h2
      simp only [if_neg hc, hcb, if_true]
      cases hsp : splitOnChar sep rest with
      | nil => exact absurd hsp (splitOnChar_ne_nil sep rest)
      | cons hd t =>
        rw [hsp] at ih
        simp only [List.getD_cons_succ] at ih ⊢
        exact ih hrest

/-- C8 (amended): for an accepted marker line, the name is the trimmed
text before the first marker and the price text is the text strictly
between the first marker and the next marker occurrence (or the end of
the line) — the line is split on every marker and element 1 taken, so
text after a second marker is discarded from the price. -/
theorem pdf_line_between_markers (l : Str) (rest : List Str)
    (h : containsChar dollar l = true) :
    pdfProcess (l :: rest) =
      (match pyFloatParse (removeAll dot (pyStrip
          (((l.dropWhile (fun c => !(c == dollar))).tail).takeWhile (fun c => !(c == dollar))))) with
      | none =>
        Except.error (vegErrorMsg (removeAll dot (pyStrip
          (((l.dropWhile (fun c => !(c == dollar))).tail).takeWhile (fun c => !(c == dollar))))))
      | some v =>
        match pdfProcess rest with
        | .error e => Except.error e
        | .ok ps =>
          Except.ok (⟨pyStrip (l.takeWhile (fun c => !(c == dollar))), v⟩ :: ps)) := by
  have h0 := splitOnChar_head dollar l
  have h1 := splitOnChar_second dollar l h
  simp only [pdfProcess, h, if_true, pdfPriceText, pdfName, h0, h1]

/-- Witness for `pdf_line_between_markers` on the line `Papa $ 500`. -/
theorem pdf_line_between_markers_witness :
    pdfProcess [("Papa $ 500".data)] = Except.ok [⟨"Papa".data, PyFloat.fin 500⟩] := by
  rw [pdf_line_between_markers ("Papa $ 500".data) [] (by decide)]
  decide

/-- Counterexample to C8 as stated: on the line `Papa $1.500$ x kg` the
extractor accepts and emits the price 1500 taken from the text between
the two markers, while the entire remainder of the line after the first
marker (`1.500$ x kg`), trimmed and with periods removed, does not parse
as a number at all. -/
theorem pdf_split_once_counterexample :
    parse_pdf [some ("Papa $1.500$ x kg".data)] =
      Except.ok [⟨"Papa".data, PyFloat.fin 1500⟩] ∧
    pyFloatParse (removeAll dot (pyStrip
      (((("Papa $1.500$ x kg".data).dropWhile (fun c => !(c == dollar))).tail)))) = none := by
  constructor
  · decide
  · decide

/-- A line without the currency marker contributes nothing to the
extraction. -/
theorem pdfProcess_skip (l : Str) (hl : containsChar dollar l = false) :
    ∀ pre post : List Str, pdfProcess (pre ++ l :: post) = pdfProcess (pre ++ post) := by
  intro pre
  induction pre with
  | nil =>
    intro post
    simp only [List.nil_append, pdfProcess, hl, Bool.false_eq_true, if_false]
  | cons a pre ih =>
    intro post
    simp only [List.cons_append, pdfProcess, List.append_eq]
    rw [ih post]

/-- A marker line whose price text does not convert makes the whole
extraction fail with the wrapped vegetable-document error. -/
theorem pdfProcess_bad (lines : List Str)
    (hbad : ∃ bad ∈ lines, containsChar dollar bad = true ∧
      pyFloatParse (pdfPriceText bad) = none) :
    ∃ t, pdfProcess lines = Except.error (vegErrorMsg t) := by
  induction lines with
  | nil => simp at hbad
  | cons a rest ih =>
    rcases hbad with ⟨bad, hmem, hc, hp⟩
    rcases List.mem_cons.mp hmem with heq | hmem2
    · subst heq
      refine ⟨pdfPriceText bad, ?_⟩
      simp only [pdfProcess, hc, if_true, hp]
    · rcases ih ⟨bad, hmem2, hc, hp⟩ with ⟨t, ht⟩
      by_cases hca : containsChar dollar a = true
      · cases hpa : pyFloatParse (pdfPriceText a) with
        | none =>
          refine ⟨pdfPriceText a, ?_⟩
          simp only [pdfProcess, hca, if_true, hpa]
        | some v =>
          refine ⟨t, ?_⟩
          simp only [pdfProcess, hca, if_true, hpa, ht]
      · refine ⟨t, ?_⟩
        have hcaf : containsChar dollar a = false := by
          simpa using hca
        simp only [pdfProcess, hcaf, Bool.false_eq_true, if_false]
        exact ht

/-- C7: every non-blank line without a currency marker is silently
skipped and contributes nothing, while the presence of any line that
contains the marker but whose extracted price text does not convert
makes the extraction of the whole document fail with a single wrapped
error identifying the vegetable price document — nothing incomplete is
returned. -/
theorem line_text_extractor_errors (pages : List (Option Str)) (pre post : List Str) (l : Str) :
    (pdfLines pages = pre ++ l :: post → containsChar dollar l = false →
      pdfProcess (pdfLines pages) = pdfProcess (pre ++ post)) ∧
    ((∃ bad ∈ pdfLines pages, containsChar dollar bad = true ∧
        pyFloatParse (pdfPriceText bad) = none) →
      ∃ t, parse_pdf pages = Except.error (vegErrorMsg t)) := by
  constructor
  · intro heq hl
    rw [heq]
    exact pdfProcess_skip l hl pre post
  · intro hbad
    exact pdfProcess_bad (pdfLines pages) hbad

/-- Witness for `line_text_extractor_errors` on a two-line document with
a markerless line and a malformed price line. -/
theorem line_text_extractor_errors_witness :
    pdfProcess (pdfLines [some ("Tomate 300\nPapa $abc".data)]) =
      pdfProcess ([] ++ ["Papa $abc".data]) ∧
    (∃ t, parse_pdf [some ("Tomate 300\nPapa $abc".data)] =
      Except.error (vegErrorMsg t)) := by
  constructor
  · exact (line_text_extractor_errors [some ("Tomate 300\nPapa $abc".data)] []
      ["Papa $abc".data] ("Tomate 300".data)).1 (by decide) (by decide)
  · exact (line_text_extractor_errors [some ("Tomate 300\nPapa $abc".data)] [] [] []).2
      ⟨"Papa $abc".data, by decide, by decide, by decide⟩

/-- Counterexample to C3 as stated: on the bare-line Markdown scenario
input the parser returns one record whose ingredient list is empty — the
two bare ingredient lines do not match the ingredient expression of
`parse_md`, which demands a leading list-item run before the quantity or
name. -/
theorem md_bare_lines_counterexample :
    parse_md mdBareInput =
      Except.ok [⟨"Pastel de Papa".data, [],
        ("Hervir papa.\nCocinar carne.\n").data⟩] := by
  decide

/-- C3 (amended): with the two ingredient lines carrying a list-item
marker (`- 1 kg de Papa`, `- Carne: 0.5 kg`) the parser returns exactly
one record whose ingredient list is `[(Papa, 1.0 kg), (Carne, 0.5 kg)]`
and whose instructions are the two instruction lines newline-joined;
with the bare lines the ingredient list is empty. -/
theorem md_scenario_with_list_markers :
    parse_md mdMarkedInput =
      Except.ok [⟨"Pastel de Papa".data,
        [⟨"Papa".data, 1⟩, ⟨"Carne".data, mkRat 1 2⟩],
        ("Hervir papa.\nCocinar carne.\n").data⟩] ∧
    parse_md mdBareInput =
      Except.ok [⟨"Pastel de Papa".data, [],
        ("Hervir papa.\nCocinar carne.\n").data⟩] := by
  constructor
  · decide
  · decide

/-- Counterexample to C9 as stated: the vegetable-document path accepts
the line `Tomate $-500` and the upsert stage then writes an `Ingredient`
row carrying the negative price −500. -/
theorem negative_price_counterexample :
    parse_pdf [some ("Tomate $-500".data)] =
      Except.ok [⟨"Tomate".data, PyFloat.fin (-500)⟩] ∧
    save_base_ingredients [⟨"Tomate".data, PyFloat.fin (-500)⟩] =
      [("tomate".data, PyFloat.fin (-500))] ∧
    (-500 : ℚ) < 0 := by
  refine ⟨by decide, by decide, by decide⟩

/-- Case analysis on a digit character. -/
theorem isDigitC_elim (c : Char) (h : isDigitC c = true) :
    c = '0' ∨ c = '1' ∨ c = '2' ∨ c = '3' ∨ c = '4' ∨
    c = '5' ∨ c = '6' ∨ c = '7' ∨ c = '8' ∨ c = '9' := by
  have hm : c ∈ ['0', '1', '2', '3', '4', '5', '6', '7', '8', '9'] := by
    simpa [isDigitC] using h
  simpa using hm

/-- A digit or period character is unchanged by lowering, is not a sign
character and is not whitespace. -/
theorem digitDot_char_facts (c : Char) (h : (isDigitC c || c == dot) = true) :
    pyLowerChar c = c ∧ c ≠ '+' ∧ c ≠ '-' ∧ isPySpace c = false := by
  have h2 : isDigitC c = true ∨ c = dot := by
    simpa using h
  rcases h2 with hd | hdot
  · rcases isDigitC_elim c hd with h | h | h | h | h | h | h | h | h | h <;>
      (subst h; exact ⟨by decide, by decide, by decide, by decide⟩)
  · subst hdot
    exact ⟨by decide, by decide, by decide, by decide⟩

/-- A string of digits and periods carries no sign. -/
theorem stripSign_digitDot (u : Str)
    (hu : u.all (fun c => isDigitC c || c == dot) = true) :
    stripSign u = (false, u) := by
  cases u with
  | nil => rfl
  | cons c r =>
    have hc := List.all_eq_true.mp hu c (by simp)
    have hf := digitDot_char_facts c hc
    simp only [stripSign]
    rw [if_neg hf.2.1, if_neg hf.2.2.1]

/-- Dropping leading whitespace does nothing to a whitespace-free
string. -/
theorem dropWhile_eq_self_of_no_space (l : Str)
    (h : ∀ c ∈ l, isPySpace c = false) :
    l.dropWhile isPySpace = l := by
  cases l with
  | nil => rfl
  | cons c r =>
    rw [List.dropWhile_cons, h c (by simp)]
    simp

/-- Stripping does nothing to a whitespace-free string. -/
theorem pyStrip_eq_self_of_no_space (u : Str)
    (h : ∀ c ∈ u, isPySpace c = false) :
    pyStrip u = u := by
  unfold pyStrip
  rw [dropWhile_eq_self_of_no_space u h,
    dropWhile_eq_self_of_no_space u.reverse
      (fun c hc => h c (List.mem_reverse.mp hc)),
    List.reverse_reverse]

/-- A string of digits and periods is unchanged by stripping. -/
theorem pyStrip_digitDot (u : Str)
    (hu : u.all (fun c => isDigitC c || c == dot) = true) :
    pyStrip u = u :=
  pyStrip_eq_self_of_no_space u (fun c hc =>
    (digitDot_char_facts c (List.all_eq_true.mp hu c hc)).2.2.2)

/-- A string of digits and periods is unchanged by lowering. -/
theorem pyLower_digitDot (u : Str)
    (hu : u.all (fun c => isDigitC c || c == dot) = true) :
    pyLower u = u := by
  unfold pyLower
  have hcong : ∀ c ∈ u, pyLowerChar c = id c := fun c hc =>
    (digitDot_char_facts c (List.all_eq_true.mp hu c hc)).1
  rw [List.map_congr_left hcong, List.map_id]

/-- The mantissa value of a float literal is non-negative. -/
theorem mantissaVal_nonneg (ip f : Str) : 0 ≤ mantissaVal ip f := by
  unfold mantissaVal
  rw [mkRat_val]
  positivity

/-- Scaling by a power of ten preserves non-negativity. -/
theorem scale10_nonneg (q : ℚ) (hq : 0 ≤ q) (z : ℤ) : 0 ≤ scale10 q z := by
  unfold scale10
  have hnum : (0 : ℤ) ≤ q.num := Rat.num_nonneg.mpr hq
  split_ifs with hz
  · rw [mkRat_val]
    apply div_nonneg
    · have hprod : (0 : ℤ) ≤ q.num * 10 ^ z.toNat := mul_nonneg hnum (by positivity)
      exact_mod_cast hprod
    · positivity
  · rw [mkRat_val]
    apply div_nonneg
    · exact_mod_cast hnum
    · positivity

/-- A digit group starts with a digit. -/
theorem isDigitGroup_head (g : Str) (h : isDigitGroup g = true) :
    ∃ c ∈ g, isDigitC c = true := by
  cases g with
  | nil => simp [isDigitGroup] at h
  | cons c rest =>
    refine ⟨c, by simp, ?_⟩
    unfold isDigitGroup at h
    rw [Bool.and_eq_true] at h
    exact h.1

/-- A valid mantissa contains a digit in its integer or fraction part. -/
theorem mantissaOk_digit (ip : Str) (fp : Option Str) (h : mantissaOk ip fp = true) :
    (∃ c ∈ ip, isDigitC c = true) ∨
    (∃ f, fp = some f ∧ ∃ c ∈ f, isDigitC c = true) := by
  cases fp with
  | none => exact Or.inl (isDigitGroup_head ip h)
  | some f =>
    unfold mantissaOk at h
    rw [Bool.and_eq_true, Bool.and_eq_true] at h
    obtain ⟨⟨h1, h2⟩, h3⟩ := h
    have h3f : (ip.isEmpty && f.isEmpty) = false := by
      cases hb : (ip.isEmpty && f.isEmpty) with
      | false => rfl
      | true =>
        rw [hb] at h3
        exact absurd h3 (by decide)
    rw [Bool.or_eq_true] at h1
    rw [Bool.or_eq_true] at h2
    by_cases hip : ip.isEmpty = true
    · have hf : f.isEmpty = false := by
        rw [hip, Bool.true_and] at h3f
        exact h3f
      have hg : isDigitGroup f = true := by
        rcases h2 with hfe | hg
        · rw [hf] at hfe
          exact absurd hfe (by decide)
        · exact hg
      exact Or.inr ⟨f, rfl, isDigitGroup_head f hg⟩
    · have hipf : ip.isEmpty = false := by
        cases he : ip.isEmpty with
        | true => exact absurd he hip
        | false => rfl
      have hg : isDigitGroup ip = true := by
        rcases h1 with hfe | hg
        · rw [hipf] at hfe
          exact absurd hfe (by decide)
        · exact hg
      exact Or.inl (isDigitGroup_head ip hg)

/-- A successfully converted numeric literal has a non-negative value and
contains a digit. -/
theorem pyFloatCore_nonneg_digit (u : Str) (q : ℚ) (hq : pyFloatCore u = some q) :
    0 ≤ q ∧ u.any isDigitC = true := by
  simp only [pyFloatCore] at hq
  by_cases hok : mantissaOk ((splitDot (splitExp u).1).1) ((splitDot (splitExp u).1).2) = true
  case neg =>
    rw [if_neg hok] at hq
    exact absurd hq (by simp)
  rw [if_pos hok] at hq
  have hdig : u.any isDigitC = true := by
    rcases mantissaOk_digit _ _ hok with ⟨c, hc, hcd⟩ | ⟨f, hf, c, hc, hcd⟩
    · have hsub1 : List.Sublist ((splitDot (splitExp u).1).1) ((splitExp u).1) :=
        List.takeWhile_sublist _
      have hsub2 : List.Sublist ((splitExp u).1) u := List.takeWhile_sublist _
      exact List.any_eq_true.mpr ⟨c, hsub2.subset (hsub1.subset hc), hcd⟩
    · have hsub : List.Sublist f u := by
        cases hdw : ((splitExp u).1).dropWhile (fun c => !(c == dot)) with
        | nil =>
          rw [show ((splitDot (splitExp u).1).2) = none from by simp [splitDot, hdw]] at hf
          exact absurd hf (by simp)
        | cons ch t =>
          have hft : f = t := by
            have h2 := hf
            rw [show ((splitDot (splitExp u).1).2) = some t from by simp [splitDot, hdw]] at h2
            exact (Option.some_inj.mp h2).symm
          subst hft
          have hs1 : List.Sublist (ch :: f) ((splitExp u).1) := by
            rw [← hdw]
            exact List.dropWhile_sublist _
          have hs2 : List.Sublist f (ch :: f) := List.tail_sublist (ch :: f)
          exact (hs2.trans hs1).trans (List.takeWhile_sublist _)
      exact List.any_eq_true.mpr ⟨c, hsub.subset hc, hcd⟩
  refine ⟨?_, hdig⟩
  cases he : (splitExp u).2 with
  | none =>
    rw [he] at hq
    have hv := Option.some_inj.mp hq
    rw [← hv]
    exact mantissaVal_nonneg _ _
  | some e =>
    rw [he] at hq
    dsimp only at hq
    cases hev : expVal e with
    | none =>
      rw [hev] at hq
      exact absurd hq (by simp)
    | some z =>
      rw [hev] at hq
      have hv := Option.some_inj.mp hq
      rw [← hv]
      exact scale10_nonneg _ (mantissaVal_nonneg _ _) z

/-- The Python `float` conversion of a string of digits and periods,
when it succeeds, yields a finite non-negative value, and the string
necessarily contains a digit. -/
theorem pyFloatParse_digitDot (u : Str)
    (hu : u.all (fun c => isDigitC c || c == dot) = true)
    (v : PyFloat) (hv : pyFloatParse u = some v) :
    (∃ q : ℚ, v = PyFloat.fin q ∧ 0 ≤ q) ∧ u.any isDigitC = true := by
  have hsign := stripSign_digitDot u hu
  have hlow := pyLower_digitDot u hu
  have hstrip := pyStrip_digitDot u hu
  simp only [pyFloatParse, hstrip, hsign, hlow, Bool.false_eq_true, if_false] at hv
  by_cases h1 : u = ['i', 'n', 'f'] ∨ u = ['i', 'n', 'f', 'i', 'n', 'i', 't', 'y']
  · rcases h1 with h1 | h1 <;> (rw [h1] at hu; exact absurd hu (by decide))
  rw [if_neg h1] at hv
  by_cases h2 : u = ['n', 'a', 'n']
  · rw [h2] at hu
    exact absurd hu (by decide)
  rw [if_neg h2] at hv
  cases hc : pyFloatCore u with
  | none =>
    rw [hc] at hv
    exact absurd hv (by simp)
  | some q =>
    rw [hc] at hv
    obtain ⟨hnn, hdig⟩ := pyFloatCore_nonneg_digit u q hc
    refine ⟨⟨q, ?_, hnn⟩, hdig⟩
    exact (Option.some_inj.mp hv).symm

/-- The first digit/separator run of a string consists of `[\d.,]`
characters drawn from the string. -/
theorem firstRun_props (s run : Str) (h : firstRun s = some run) :
    run.all isNumSep = true ∧ ∀ c ∈ run, c ∈ s := by
  induction s with
  | nil => simp [firstRun] at h
  | cons a rest ih =>
    unfold firstRun at h
    by_cases ha : isNumSep a = true
    · rw [if_pos ha] at h
      have hrun : run = a :: rest.takeWhile isNumSep := (Option.some_inj.mp h).symm
      subst hrun
      constructor
      · simp only [List.all_cons, ha, Bool.true_and]
        exact List.all_takeWhile
      · intro c hc
        rcases List.mem_cons.mp hc with hc | hc
        · simp [hc]
        · exact List.mem_cons_of_mem a ((List.takeWhile_sublist _).subset hc)
    · rw [if_neg ha] at h
      obtain ⟨h1, h2⟩ := ih h
      exact ⟨h1, fun c hc => List.mem_cons_of_mem a (h2 c hc)⟩

/-- The number-conversion preprocessing of `parse_excel` turns a
`[\d.,]` run into a string of digits and periods. -/
theorem numSep_transform (run : Str) (h : run.all isNumSep = true) :
    (replaceChar comma dot (removeAll dot run)).all
      (fun c => isDigitC c || c == dot) = true := by
  rw [List.all_eq_true] at h ⊢
  intro x hx
  unfold replaceChar at hx
  rcases List.mem_map.mp hx with ⟨y, hy, hxy⟩
  unfold removeAll at hy
  have hyne : (y != dot) = true := (List.mem_filter.mp hy).2
  have hymem : y ∈ run := (List.mem_filter.mp hy).1
  have hnum : isNumSep y = true := h y hymem
  subst hxy
  by_cases hyc : y = comma
  · simp [hyc]
  · simp only [if_neg hyc]
    unfold isNumSep at hnum
    rcases (by simpa using hnum :
        (isDigitC y = true ∨ y = dot) ∨ y = comma) with h1 | h2
    · rcases h1 with hd | hdot
      · simp [hd]
      · rw [hdot] at hyne
        exact absurd hyne (by decide)
    · exact absurd h2 hyc

/-- Unfolding characterization of the per-cell loop body of
`parse_excel` (in the shape of the source's successive guards). -/
theorem excelCell_some_iff (left cell : Option Str) (p : Producto) :
    excelCell left cell = some p ↔
      ∃ s run v l, cell = some s ∧
        (containsChar dollar (pyStrip s) = true ∨ (pyStrip s).any isNumSep = true) ∧
        firstRun (pyStrip s) = some run ∧
        excelNumber run = some v ∧
        left = some l ∧
        (pyStrip l).isEmpty = false ∧
        ENCABEZADOS.contains (pyLower (pyStrip l)) = false ∧
        isdigitStr (removeAll comma (removeAll dot (pyStrip l))) = false ∧
        p = ⟨pyStrip l, v⟩ := by
  constructor
  · intro h
    cases cell with
    | none => simp [excelCell] at h
    | some s =>
      simp only [excelCell] at h
      by_cases h1 : (!containsChar dollar (pyStrip s) && !((pyStrip s).any isNumSep)) = true
      · rw [if_pos h1] at h
        exact absurd h (by simp)
      rw [if_neg h1] at h
      have hcond : containsChar dollar (pyStrip s) = true ∨ (pyStrip s).any isNumSep = true := by
        by_contra hc
        push_neg at hc
        obtain ⟨hc1, hc2⟩ := hc
        apply h1
        rw [Bool.and_eq_true]
        constructor
        · rw [Bool.of_not_eq_true hc1]
          rfl
        · rw [Bool.of_not_eq_true hc2]
          rfl
      cases hr : firstRun (pyStrip s) with
      | none =>
        rw [hr] at h
        exact absurd h (by simp)
      | some run =>
        rw [hr] at h
        dsimp only at h
        cases hn : excelNumber run with
        | none =>
          rw [hn] at h
          exact absurd h (by simp)
        | some v =>
          rw [hn] at h
          dsimp only at h
          cases left with
          | none => exact absurd h (by simp)
          | some l =>
            dsimp only at h
            by_cases h2 : ((pyStrip l).isEmpty ||
                ENCABEZADOS.contains (pyLower (pyStrip l)) ||
                isdigitStr (removeAll comma (removeAll dot (pyStrip l)))) = true
            · rw [if_pos h2] at h
              exact absurd h (by simp)
            · rw [if_neg h2] at h
              have hb := Bool.of_not_eq_true h2
              rw [Bool.or_eq_false_iff, Bool.or_eq_false_iff] at hb
              obtain ⟨⟨hb1, hb2⟩, hb3⟩ := hb
              exact ⟨s, run, v, l, rfl, hcond, hr, hn, rfl, hb1, hb2, hb3,
                (Option.some_inj.mp h).symm⟩
  · intro hh
    obtain ⟨s, run, v, l, hcell, hcond, hr, hn, hleft, he1, he2, he3, hp⟩ := hh
    subst hcell
    subst hleft
    subst hp
    simp only [excelCell]
    have hguard1 : ((!containsChar dollar (pyStrip s)) &&
        (!(pyStrip s).any isNumSep)) ≠ true := by
      intro hand
      rw [Bool.and_eq_true] at hand
      obtain ⟨ha, hb⟩ := hand
      rcases hcond with hc | hc
      · rw [hc] at ha
        exact absurd ha (by decide)
      · rw [hc] at hb
        exact absurd hb (by decide)
    rw [if_neg hguard1, hr]
    dsimp only
    rw [hn]
    dsimp only
    have hguard2 : ((pyStrip l).isEmpty ||
        ENCABEZADOS.contains (pyLower (pyStrip l)) ||
        isdigitStr (removeAll comma (removeAll dot (pyStrip l)))) ≠ true := by
      rw [he1, he2, he3]
      decide
    rw [if_neg hguard2]

/-- A digit in the preprocessed number string comes from a digit in the
original run. -/
theorem transform_digit_back (run : Str)
    (h : (replaceChar comma dot (removeAll dot run)).any isDigitC = true) :
    run.any isDigitC = true := by
  rw [List.any_eq_true] at h ⊢
  obtain ⟨x, hx, hxd⟩ := h
  rcases List.mem_map.mp hx with ⟨y, hy, hxy⟩
  have hymem : y ∈ run := (List.mem_filter.mp hy).1
  by_cases hyc : y = comma
  · rw [if_pos hyc] at hxy
    rw [← hxy] at hxd
    exact absurd hxd (by decide)
  · rw [if_neg hyc] at hxy
    subst hxy
    exact ⟨y, hymem, hxd⟩

/-- C2: the Tabular Price Extractor emits a record for a cell iff the
cell is non-empty, its trimmed value contains the currency marker or a
digit, the first digit/separator run converts to a finite number after
removing periods and turning commas into periods, and the left
neighbour is non-empty with a trimmed label that is neither a stopword
nor purely numeric after stripping separators; the record pairs the
trimmed original-case label with the converted number.  The grid-level
extractor visits every (row, col ≥ 1) cell with its left neighbour in
document order. -/
theorem tabular_extractor_iff (left cell : Option Str) (p : Producto)
    (grid : List (List (Option Str))) :
    (excelCell left cell = some p ↔
      ∃ s run q l, cell = some s ∧
        (containsChar dollar (pyStrip s) = true ∨ (pyStrip s).any isDigitC = true) ∧
        firstRun (pyStrip s) = some run ∧
        excelNumber run = some (PyFloat.fin q) ∧
        left = some l ∧
        (pyStrip l).isEmpty = false ∧
        ENCABEZADOS.contains (pyLower (pyStrip l)) = false ∧
        isdigitStr (removeAll comma (removeAll dot (pyStrip l))) = false ∧
        p = ⟨pyStrip l, PyFloat.fin q⟩) ∧
    parse_excel grid =
      grid.flatMap (fun row => (row.zip row.tail).filterMap (fun pr => excelCell pr.1 pr.2)) := by
  constructor
  · rw [excelCell_some_iff]
    constructor
    · rintro ⟨s, run, v, l, hcell, _, hr, hn, hleft, he1, he2, he3, hp⟩
      obtain ⟨hrall, hrmem⟩ := firstRun_props _ _ hr
      have hall := numSep_transform run hrall
      obtain ⟨⟨q, hqv, hq0⟩, hdig⟩ := pyFloatParse_digitDot _ hall v hn
      subst hqv
      refine ⟨s, run, q, l, hcell, Or.inr ?_, hr, hn, hleft, he1, he2, he3, hp⟩
      have hrdig := transform_digit_back run hdig
      rw [List.any_eq_true] at hrdig ⊢
      obtain ⟨c, hcm, hcd⟩ := hrdig
      exact ⟨c, hrmem c hcm, hcd⟩
    · rintro ⟨s, run, q, l, hcell, hcond, hr, hn, hleft, he1, he2, he3, hp⟩
      refine ⟨s, run, PyFloat.fin q, l, hcell, ?_, hr, hn, hleft, he1, he2, he3, hp⟩
      rcases hcond with hc | hc
      · exact Or.inl hc
      · refine Or.inr ?_
        rw [List.any_eq_true] at hc ⊢
        obtain ⟨c, hcm, hcd⟩ := hc
        refine ⟨c, hcm, ?_⟩
        unfold isNumSep
        rw [hcd]
        rfl
  · rfl

/-- Witness for `tabular_extractor_iff` on the cell pair
`(Asado, $ 1.200)`. -/
theorem tabular_extractor_iff_witness :
    excelCell (some ("Asado".data)) (some ("$ 1.200".data)) =
      some ⟨"Asado".data, PyFloat.fin 1200⟩ :=
  ((tabular_extractor_iff (some ("Asado".data)) (some ("$ 1.200".data))
      ⟨"Asado".data, PyFloat.fin 1200⟩ []).1).mpr
    ⟨"$ 1.200".data, "1.200".data, 1200, "Asado".data,
      rfl, Or.inl (by decide), by decide, by decide, rfl,
      by decide, by decide, by decide, rfl⟩

/-- C9 (amended): every `Ingredient` row written via the meat-sheet path
(the Tabular Price Extractor followed by the upsert stage) carries a
finite, non-negative `price_per_kg`, for every input grid; the
vegetable-document path gives no such guarantee (see the
counterexample). -/
theorem meat_prices_nonneg (grid : List (List (Option Str))) (row : Str × PyFloat)
    (hrow : row ∈ save_base_ingredients (parse_excel grid)) :
    ∃ q : ℚ, row.2 = PyFloat.fin q ∧ 0 ≤ q := by
  unfold save_base_ingredients at hrow
  rcases List.mem_map.mp hrow with ⟨p, hp, hrw⟩
  subst hrw
  unfold parse_excel at hp
  rcases List.mem_flatMap.mp hp with ⟨rowl, hrowl, hcellmem⟩
  rcases List.mem_filterMap.mp hcellmem with ⟨pr, hpr, hc⟩
  rcases (excelCell_some_iff pr.1 pr.2 p).mp hc with
    ⟨s, run, v, l, _, _, hr, hn, _, _, _, _, hpeq⟩
  have hall := numSep_transform run (firstRun_props _ _ hr).1
  obtain ⟨⟨q, hqv, hq0⟩, _⟩ := pyFloatParse_digitDot _ hall v hn
  subst hpeq
  exact ⟨q, by rw [hqv], hq0⟩

/-- Witness for `meat_prices_nonneg` on a one-row grid. -/
theorem meat_prices_nonneg_witness :
    (("asado".data, PyFloat.fin 1200) ∈
      save_base_ingredients (parse_excel [[some ("Asado".data), some ("$ 1.200".data)]])) ∧
    ∃ q : ℚ, (("asado".data, PyFloat.fin 1200) : Str × PyFloat).2 = PyFloat.fin q ∧ 0 ≤ q :=
  ⟨by decide, meat_prices_nonneg [[some ("Asado".data), some ("$ 1.200".data)]]
      ("asado".data, PyFloat.fin 1200) (by decide)⟩

/-- Fidelity check for the whitespace acceptance of `float`: the price
text of the line `Papa $5 .` strips to `5 ` after period removal, which
CPython's `float` accepts as 5.0, so the extractor emits the record
rather than failing the document. -/
theorem pdf_whitespace_price_accepted :
    pyFloatParse ['5', ' '] = some (PyFloat.fin 5) ∧
    pyFloatParse [' ', '5'] = some (PyFloat.fin 5) ∧
    parse_pdf [some ("Papa $5 .".data)] =
      Except.ok [⟨"Papa".data, PyFloat.fin 5⟩] := by
  refine ⟨by decide, by decide, by decide⟩
